import Mathlib

/-!
Verification development for the Kalepin newsletter event pipeline
(`script.py`): time-window filtering of fetched events, HTML
sanitization and truncation of descriptions, locale-aware date
formatting, and the shaping of raw GraphQL event records into the
flat structures handed to the template.

Python dictionaries coming from the GraphQL response distinguish an
absent key from a key bound to `null` (`None`); where the script's
behaviour depends on that distinction the embedding keeps it (the
`PyField` type below), and where the script collapses the two (for
example through `x or ""`) the embedding uses `Option` with `none`
standing for absent-or-null.

Timestamps are embedded as `Int` epoch seconds; `parse_begins_on`
models `datetime.fromisoformat` on the wire format
`YYYY-MM-DDTHH:MM:SSZ` that both `get_time_window` and the Mobilizon
API produce, returning `none` where the Python call would raise
`ValueError`. Fallible Python code is embedded with `Option`: a
`none` result stands for an uncaught exception.
-/

/-! ## Python string helpers -/

/-- The whitespace set of Python's `str.strip` / `str.rstrip`
(ASCII whitespace plus the Unicode space separators). -/
def py_isspace (c : Char) : Bool :=
  c = ' ' || c = '\t' || c = '\n' || c = '\r' || c = '\x0b' || c = '\x0c' ||
  c = '\x1c' || c = '\x1d' || c = '\x1e' || c = '\x1f' || c = '\u0085' ||
  c = '\u00a0' || c = '\u1680' || ('\u2000' ≤ c && c ≤ '\u200a') ||
  c = '\u2028' || c = '\u2029' || c = '\u202f' || c = '\u205f' || c = '\u3000'

/-- Python `s.rstrip()`: drop trailing whitespace characters. -/
def rstrip (s : String) : String :=
  String.mk ((s.data.reverse.dropWhile py_isspace).reverse)

/-- Python truthiness of `x.strip()` for a string `x`: true when `x`
contains at least one non-whitespace character. -/
def has_visible (x : String) : Bool :=
  x.data.any (fun c => ! py_isspace c)

/-- Python `f"{n:02d}"` for the minute field: zero-pad to two digits. -/
def pad2 (n : Int) : String :=
  if n < 10 then "0" ++ toString n else toString n

/-! ## HTML sanitizer model

`sanitize_html` in the script delegates to BeautifulSoup with the
`html5lib` tree builder, an external library that is not part of this
repository. Modelled from the spec: a fault-tolerant HTML parser of
the browser tolerance class tokenizes the fragment, builds a tree by
auto-closing any still-open tags (a stray close tag with no matching
open tag is dropped, a close tag further down the stack closes the
intervening elements first), and the fragment's inner content is
re-serialized with every opened tag closed. Attributes, entities and
the html5 content-model special cases are outside the model. -/

/-- One token of the HTML fragment: an opening tag, a closing tag or
a run of text. -/
inductive Tok : Type where
  | topen (name : String) : Tok
  | tclose (name : String) : Tok
  | text (s : String) : Tok
deriving DecidableEq

/-- Turn the raw characters of a tag (between `<` and `>`) into a
token; a leading `/` marks a closing tag, and the name stops at the
first space (attributes are ignored by the model). -/
def mkTag (cs : List Char) : Tok :=
  match cs with
  | '/' :: rest => Tok.tclose (String.mk (rest.takeWhile (fun c => c ≠ ' ')))
  | _ => Tok.topen (String.mk (cs.takeWhile (fun c => c ≠ ' ')))

/-- Emit a pending run of text characters as a token, or nothing when
the run is empty. -/
def flushText (tacc : List Char) : List Tok :=
  match tacc with
  | [] => []
  | _ => [Tok.text (String.mk tacc)]

/-- Tokenizer state machine: the second argument is `some acc` while
inside a `<...>` tag and `none` while in text; the third accumulates
the current text run. A tag left unterminated at end of input is
dropped, as the html5 tokenizer does. -/
def tokenizeAux : List Char → Option (List Char) → List Char → List Tok
  | [], none, tacc => flushText tacc
  | [], some _, _ => []
  | c :: cs, none, tacc =>
    if c = '<' then flushText tacc ++ tokenizeAux cs (some []) []
    else tokenizeAux cs none (tacc ++ [c])
  | c :: cs, some tagAcc, tacc =>
    if c = '>' then mkTag tagAcc :: tokenizeAux cs none []
    else tokenizeAux cs (some (tagAcc ++ [c])) tacc

/-- Tokenize an HTML fragment string. -/
def tokenize (s : String) : List Tok :=
  tokenizeAux s.data none []

/-- Closing tags emitted for every element of the open-tag stack up
to and including the first occurrence of `n`. -/
def closeUpTo (n : String) : List String → List Tok
  | [] => []
  | m :: rest => Tok.tclose m :: (if m = n then [] else closeUpTo n rest)

/-- The open-tag stack with everything up to and including the first
occurrence of `n` removed. -/
def popUpTo (n : String) : List String → List String
  | [] => []
  | m :: rest => if m = n then rest else popUpTo n rest

/-- Fault-tolerant tree construction over the token stream, carrying
the stack of currently open tags: open tags push, a close tag that
matches something on the stack closes down to it, a stray close tag
is dropped, and end of input closes every tag still open. -/
def buildAux : List Tok → List String → List Tok
  | [], stack => stack.map (fun n => Tok.tclose n)
  | Tok.topen n :: rest, stack => Tok.topen n :: buildAux rest (n :: stack)
  | Tok.tclose n :: rest, stack =>
    if stack.contains n then closeUpTo n stack ++ buildAux rest (popUpTo n stack)
    else buildAux rest stack
  | Tok.text s :: rest, stack => Tok.text s :: buildAux rest stack

/-- The sanitized token stream of a raw description fragment. -/
def sanitize_toks (raw_html : String) : List Tok :=
  buildAux (tokenize raw_html) []

/-- Serialize one token back to text. -/
def serializeTok : Tok → String
  | Tok.topen n => "<" ++ n ++ ">"
  | Tok.tclose n => "</" ++ n ++ ">"
  | Tok.text s => s

/-- Serialize a token stream back to an HTML fragment string. -/
def serializeToks (toks : List Tok) : String :=
  String.join (toks.map serializeTok)

/-- The script's `sanitize_html`: parse the raw fragment tolerantly
and re-serialize its inner content with all tags properly closed. -/
def sanitize_html (raw_html : String) : String :=
  serializeToks (sanitize_toks raw_html)

/-- The text payload of a token (`""` for tags). -/
def textOf : Tok → String
  | Tok.text s => s
  | _ => ""

/-- Plain-text extraction, modelling
`BeautifulSoup(cleaned_html, "html.parser").get_text()` on the
sanitized fragment: concatenate the text runs, dropping all markup. -/
def get_text (toks : List Tok) : String :=
  String.join (toks.map textOf)

/-- Structural validity checker for a token stream: every close tag
matches the innermost open tag and no tag is left open at the end. -/
def balancedAux : List Tok → List String → Bool
  | [], [] => true
  | [], _ :: _ => false
  | Tok.topen n :: rest, stack => balancedAux rest (n :: stack)
  | Tok.tclose _ :: _, [] => false
  | Tok.tclose n :: rest, m :: stack => n = m && balancedAux rest stack
  | Tok.text _ :: rest, stack => balancedAux rest stack

/-! ## Calendar arithmetic

Proleptic-Gregorian conversions between `(year, month, day)` and days
since the Unix epoch, the standard era-based algorithm. These model
the calendar arithmetic that `datetime` performs internally. -/

/-- Gregorian leap-year rule. -/
def leap_year (y : Int) : Bool :=
  y.emod 4 = 0 && (y.emod 100 ≠ 0 || y.emod 400 = 0)

/-- Number of days in a month. -/
def days_in_month (y m : Int) : Int :=
  if m = 2 then (if leap_year y then 29 else 28)
  else if m = 4 ∨ m = 6 ∨ m = 9 ∨ m = 11 then 30
  else 31

/-- Days since 1970-01-01 of a Gregorian civil date. -/
def days_from_civil (y m d : Int) : Int :=
  let y2 := if m ≤ 2 then y - 1 else y
  let era := y2.fdiv 400
  let yoe := y2 - era * 400
  let mp := (m + 9).fmod 12
  let doy := (153 * mp + 2).fdiv 5 + d - 1
  let doe := yoe * 365 + yoe.fdiv 4 - yoe.fdiv 100 + doy
  era * 146097 + doe - 719468

/-- Gregorian civil date `(year, month, day)` of a count of days
since 1970-01-01. -/
def civil_from_days (z0 : Int) : Int × Int × Int :=
  let z := z0 + 719468
  let era := z.fdiv 146097
  let doe := z - era * 146097
  let yoe := (doe - doe.fdiv 1460 + doe.fdiv 36524 - doe.fdiv 146096).fdiv 365
  let y := yoe + era * 400
  let doy := doe - (365 * yoe + yoe.fdiv 4 - yoe.fdiv 100)
  let mp := (5 * doy + 2).fdiv 153
  let d := doy - (153 * mp + 2).fdiv 5 + 1
  let m := mp + (if mp < 10 then 3 else -9)
  (if m ≤ 2 then y + 1 else y, m, d)

/-- Day of week of a day count, Monday = 0 as in Python's
`datetime.weekday()` (1970-01-01 was a Thursday, value 3). -/
def weekday_of_days (days : Int) : Int :=
  (days + 3).fmod 7

/-! ## ISO-8601 parsing -/

/-- Numeric value of a decimal digit character. -/
def digit_val (c : Char) : Option Int :=
  if c.isDigit then some ((c.toNat : Int) - 48) else none

/-- Model of `datetime.fromisoformat(s.replace("Z", "+00:00"))` on
the wire format `YYYY-MM-DDTHH:MM:SSZ` used by `get_time_window` and
by the Mobilizon API: returns the UTC instant as epoch seconds, or
`none` (the Python call raises `ValueError`) when the string does not
have that shape or a field is out of range. -/
def parse_begins_on (s : String) : Option Int :=
  match s.data with
  | [y1, y2, y3, y4, c1, m1, m2, c2, d1, d2, c3, h1, h2, c4, n1, n2, c5, p1, p2, c6] =>
    if c1 = '-' ∧ c2 = '-' ∧ c3 = 'T' ∧ c4 = ':' ∧ c5 = ':' ∧ c6 = 'Z' then
      match digit_val y1, digit_val y2, digit_val y3, digit_val y4,
            digit_val m1, digit_val m2, digit_val d1, digit_val d2,
            digit_val h1, digit_val h2, digit_val n1, digit_val n2,
            digit_val p1, digit_val p2 with
      | some a, some b, some c, some d, some e, some f, some g, some h,
        some i, some j, some k, some l, some m, some n =>
        let year := 1000 * a + 100 * b + 10 * c + d
        let month := 10 * e + f
        let day := 10 * g + h
        let hour := 10 * i + j
        let minute := 10 * k + l
        let second := 10 * m + n
        if 1 ≤ month ∧ month ≤ 12 ∧ 1 ≤ day ∧ day ≤ days_in_month year month ∧
            hour ≤ 23 ∧ minute ≤ 59 ∧ second ≤ 59 then
          some (days_from_civil year month day * 86400 +
            hour * 3600 + minute * 60 + second)
        else none
      | _, _, _, _, _, _, _, _, _, _, _, _, _, _ => none
    else none
  | _ => none

/-! ## Europe/Paris conversion

Modelled from the spec: the script converts with
`astimezone(ZoneInfo("Europe/Paris"))`, whose rules come from the
system timezone database, an external collaborator not in this
repository. The model applies the EU daylight-saving rule in force
since 1996 (UTC+1 standard, UTC+2 between 01:00 UTC on the last
Sunday of March and 01:00 UTC on the last Sunday of October), which
agrees with the database for every instant the pipeline handles. -/

/-- Day count of the last Sunday of a 31-day month. -/
def last_sunday_days (y m : Int) : Int :=
  let dlast := days_from_civil y m 31
  dlast - (weekday_of_days dlast + 1).fmod 7

/-- Instant (epoch seconds) at which daylight-saving time starts in
year `y`: 01:00 UTC on the last Sunday of March. -/
def dst_start (y : Int) : Int :=
  last_sunday_days y 3 * 86400 + 3600

/-- Instant (epoch seconds) at which daylight-saving time ends in
year `y`: 01:00 UTC on the last Sunday of October. -/
def dst_end (y : Int) : Int :=
  last_sunday_days y 10 * 86400 + 3600

/-- UTC calendar year containing an instant. -/
def utc_year (t : Int) : Int :=
  (civil_from_days (t.fdiv 86400)).1

/-- Europe/Paris UTC offset in seconds at an instant: 7200 during
daylight-saving time and 3600 otherwise, by timezone-rule, not a
fixed offset. -/
def paris_offset (t : Int) : Int :=
  let y := utc_year t
  if dst_start y ≤ t ∧ t < dst_end y then 7200 else 3600

/-! ## French date rendering (script lines 122-168) -/

/-- French weekday names, indexed by `datetime.weekday()`
(zero-based, Monday first), exactly the table in the script. -/
def jours_semaine : List String :=
  ["Lundi", "Mardi", "Mercredi", "Jeudi", "Vendredi", "Samedi", "Dimanche"]

/-- French month names indexed one-based (a placeholder at index 0),
exactly the table in the script. -/
def mois_annee : List String :=
  ["", "janvier", "février", "mars", "avril", "mai", "juin",
   "juillet", "août", "septembre", "octobre", "novembre", "décembre"]

/-- The `full_date` string of an instant: convert UTC to Europe/Paris
wall-clock time and render
`f"{jour_nom} {jour_num} {mois_nom} {annee} à {heure} h {minute_str}"`
as the script does, with the hour unpadded and the minute
zero-padded to two digits. -/
def full_date_of (t : Int) : String :=
  let loc := t + paris_offset t
  let days := loc.fdiv 86400
  let secs := loc.fmod 86400
  let ymd := civil_from_days days
  let jour_nom := jours_semaine.getD (weekday_of_days days).toNat ""
  let mois_nom := mois_annee.getD ymd.2.1.toNat ""
  jour_nom ++ " " ++ toString ymd.2.2 ++ " " ++ mois_nom ++ " " ++
    toString ymd.1 ++ " à " ++ toString (secs.fdiv 3600) ++ " h " ++
    pad2 ((secs.fmod 3600).fdiv 60)

/-! ## Data model

A raw event is the dictionary built from one element of
`data.searchEvents.elements`. `PyField` keeps the three states a
Python dictionary key can be in where the script treats them
differently; `Option` is used where absent and null flow identically
through the script (`none` = absent-or-null). -/

/-- State of an optional key in a Python dictionary: missing, bound
to `None`, or bound to a value. -/
inductive PyField (α : Type) : Type where
  | absent : PyField α
  | null : PyField α
  | val (a : α) : PyField α
deriving DecidableEq

/-- The `physicalAddress` sub-object: `description` and `locality`,
each possibly absent or null. -/
structure Address : Type where
  description : Option String
  locality : Option String
deriving DecidableEq

/-- One element of the GraphQL response, as consumed by
`fetch_events` and `prepare_events_for_template`. `picture` is kept
three-valued because `ev.get("picture", {})` treats an absent key
(default `{}`) differently from a `null` value; its payload is the
`url` field of the picture object. -/
structure RawEvent : Type where
  typename : String
  title : PyField String
  description : Option String
  beginsOn : Option String
  picture : PyField (Option String)
  url : Option String
  physicalAddress : Option Address
deriving DecidableEq

/-- One entry of the list returned by
`prepare_events_for_template`, as handed to the Jinja template.
`title` and `picture_url` are `Option` because the Python values can
be `None`. -/
structure NormalizedEvent : Type where
  title : Option String
  description : String
  full_date : String
  picture_url : Option String
  location : String
  link : String
deriving DecidableEq

/-! ## Event normalizer (script lines 117-179) -/

/-- Script line 133, `ev.get("title", "Sans titre")`: the placeholder
replaces an absent key only; a key bound to `None` or to any string,
empty included, is returned as stored. -/
def title_of : PyField String → Option String
  | PyField.absent => some "Sans titre"
  | PyField.null => none
  | PyField.val s => some s

/-- Script line 147, `ev.get("picture", {}).get("url")`: an absent
`picture` key defaults to `{}` whose `url` lookup gives `None`, a
picture object passes its `url` through, but a `picture` key bound to
`None` makes the second `.get` raise `AttributeError` (outer `none`). -/
def picture_url_of : PyField (Option String) → Option (Option String)
  | PyField.absent => some none
  | PyField.null => none
  | PyField.val u => some u

/-- Script lines 150-156: when `physicalAddress` is truthy, join the
sub-fields that contain a visible character with `", "`; otherwise
the location is the empty string. -/
def location_of : Option Address → String
  | none => ""
  | some a =>
    String.intercalate ", "
      (([a.description.getD "", a.locality.getD ""]).filter has_visible)

/-- Script lines 136-144: sanitize the raw description, extract its
plain text, and truncate to 300 characters with `" …"` appended when
longer (the cut is rstripped first). -/
def truncated_description (raw_desc : String) : String :=
  let text_only := get_text (sanitize_toks raw_desc)
  if 300 < text_only.length then rstrip (text_only.take 300) ++ " …"
  else text_only

/-- One iteration of the loop of `prepare_events_for_template`
(script lines 132-177). `none` models an uncaught exception: the
`AttributeError` from a null `picture` (line 147), the
`AttributeError` from an absent-or-null `beginsOn` (line 159), or the
`ValueError` from an unparseable `beginsOn` (line 159). -/
def prepare_event (ev : RawEvent) : Option NormalizedEvent :=
  match ev.beginsOn, picture_url_of ev.picture with
  | some begins_iso, some pu =>
    match parse_begins_on begins_iso with
    | some t =>
      some
        { title := title_of ev.title
          description := truncated_description (ev.description.getD "")
          full_date := full_date_of t
          picture_url := pu
          location := location_of ev.physicalAddress
          link := ev.url.getD "" }
    | none => none
  | _, _ => none

/-- The whole of `prepare_events_for_template`: map the loop body
over the list, any exception aborting the run. -/
def prepare_events_for_template (raw_events : List RawEvent) :
    Option (List NormalizedEvent) :=
  raw_events.mapM prepare_event

/-! ## Event fetcher (script lines 104-115)

The post-response filtering loop of `fetch_events`, applied to the
already-decoded `elements` array: keep the elements whose
`__typename` is `"Event"` and whose truthy `beginsOn` parses into
the window `[begins_on, ends_on)`; a falsy `beginsOn` (absent, null
or empty) skips the element; a parse failure raises (`none`). -/

/-- Post-response filter of `fetch_events`. -/
def fetch_events : List RawEvent → String → String → Option (List RawEvent)
  | [], _, _ => some []
  | elem :: rest, b, e =>
    if elem.typename = "Event" then
      match elem.beginsOn with
      | some s =>
        if s = "" then fetch_events rest b e
        else
          match parse_begins_on s, parse_begins_on b, parse_begins_on e with
          | some dt, some db, some de =>
            (fetch_events rest b e).map
              (fun tail => if db ≤ dt ∧ dt < de then elem :: tail else tail)
          | _, _, _ => none
      | none => fetch_events rest b e
    else fetch_events rest b e

/-! ## Sorting (script line 222) -/

/-- The sort key of script line 222, `ev.get('beginsOn', '')`. -/
def sort_key (ev : RawEvent) : String :=
  ev.beginsOn.getD ""

/-- Lexicographic order on character lists, Python's string
comparison: code point by code point, a prefix before its
extensions. -/
def lex_le : List Char → List Char → Bool
  | [], _ => true
  | _ :: _, [] => false
  | x :: xs, y :: ys => if x = y then lex_le xs ys else decide (x < y)

/-- Python `a <= b` on strings. -/
def py_str_le (a b : String) : Bool :=
  lex_le a.data b.data

/-- Script line 222, `raw_events.sort(key=...)`: a stable sort by the
`beginsOn` string, modelled by insertion sort (Python's sort is also
stable, and a stable sort by a key is unique). -/
def sort_events (raw_events : List RawEvent) : List RawEvent :=
  List.insertionSort
    (fun a b => py_str_le (sort_key a) (sort_key b) = true) raw_events

/-! ## Window-membership predicate

The condition under which the post-response filter of `fetch_events`
keeps an element, given the parsed window bounds `db` and `de`. -/

/-- An element qualifies for the fetch result: its discriminator is
`"Event"` and its truthy `beginsOn` parses to an instant `t` with
`db ≤ t < de`. -/
@[reducible] def in_window (db de : Int) (x : RawEvent) : Prop :=
  x.typename = "Event" ∧ ∃ s t, x.beginsOn = some s ∧ s ≠ "" ∧
    parse_begins_on s = some t ∧ db ≤ t ∧ t < de

/-! ## Concrete events used as test inputs -/

/-- A fully populated event: 2025-06-02 18:00 UTC, a picture URL
carrying a signed query string, a malformed description. -/
def evFull : RawEvent :=
  { typename := "Event"
    title := PyField.val "Concert"
    description := some "<p>Hello <b>world</b>"
    beginsOn := some "2025-06-02T18:00:00Z"
    picture := PyField.val (some "https://ex.org/img.png?sig=abc")
    url := some "https://ex.org/e/1"
    physicalAddress := some { description := some "Salle des fêtes",
                              locality := some "Annecy" } }

/-- An event whose `picture` key is present but bound to `null`, as a
GraphQL response reports a missing picture. -/
def evNullPicture : RawEvent :=
  { typename := "Event"
    title := PyField.val "Conférence"
    description := none
    beginsOn := some "2025-06-02T18:00:00Z"
    picture := PyField.null
    url := none
    physicalAddress := none }

/-- An event with every optional key missing outright. -/
def evMissingOptionals : RawEvent :=
  { typename := "Event"
    title := PyField.absent
    description := none
    beginsOn := some "2025-06-02T18:00:00Z"
    picture := PyField.absent
    url := none
    physicalAddress := none }

/-- An event whose title is present but the empty string. -/
def evEmptyTitle : RawEvent :=
  { typename := "Event"
    title := PyField.val ""
    description := none
    beginsOn := some "2025-06-02T18:00:00Z"
    picture := PyField.absent
    url := none
    physicalAddress := none }

/-- An Event element with no `beginsOn` at all. -/
def evNoBegins : RawEvent :=
  { typename := "Event"
    title := PyField.val "Sans date"
    description := none
    beginsOn := none
    picture := PyField.absent
    url := none
    physicalAddress := none }

/-- A non-event element of the response (the search can also return
group entities). -/
def evGroup : RawEvent :=
  { typename := "GroupSearchResult"
    title := PyField.val "Un groupe"
    description := none
    beginsOn := some "2025-06-02T18:00:00Z"
    picture := PyField.absent
    url := none
    physicalAddress := none }

/-- An event starting exactly at the window's end instant. -/
def evAtWindowEnd : RawEvent :=
  { typename := "Event"
    title := PyField.val "Trop tard"
    description := none
    beginsOn := some "2025-06-10T00:00:00Z"
    picture := PyField.absent
    url := none
    physicalAddress := none }

/-- The normalized record the script produces for `evFull`. -/
def normFull : NormalizedEvent :=
  { title := some "Concert"
    description := "Hello world"
    full_date := "Lundi 2 juin 2025 à 20 h 00"
    picture_url := some "https://ex.org/img.png?sig=abc"
    location := "Salle des fêtes, Annecy"
    link := "https://ex.org/e/1" }

/-- The normalized record the script produces for
`evMissingOptionals`. -/
def normMissing : NormalizedEvent :=
  { title := some "Sans titre"
    description := ""
    full_date := "Lundi 2 juin 2025 à 20 h 00"
    picture_url := none
    location := ""
    link := "" }

/-- The normalized record the script produces for `evAtWindowEnd`. -/
def normAtEnd : NormalizedEvent :=
  { title := some "Trop tard"
    description := ""
    full_date := "Mardi 10 juin 2025 à 2 h 00"
    picture_url := none
    location := ""
    link := "" }

/-! ## Helper lemmas -/

/-- Lexicographic comparison is total. -/
theorem lex_le_total : ∀ a b : List Char, lex_le a b = true ∨ lex_le b a = true := by
  intro a
  induction a with
  | nil => intro b; left; rfl
  | cons x xs ih =>
    intro b
    cases b with
    | nil => right; rfl
    | cons y ys =>
      by_cases hxy : x = y
      · subst hxy
        rcases ih ys with h | h
        · left; simp [lex_le, h]
        · right; simp [lex_le, h]
      · have hyx : ¬ y = x := fun he => hxy he.symm
        rcases lt_trichotomy x y with h | h | h
        · left; simp [lex_le, hxy, h]
        · exact absurd h hxy
        · right; simp [lex_le, hyx, h]

/-- Lexicographic comparison is transitive. -/
theorem lex_le_trans : ∀ a b c : List Char,
    lex_le a b = true → lex_le b c = true → lex_le a c = true := by
  intro a
  induction a with
  | nil => intro b c _ _; rfl
  | cons x xs ih =>
    intro b c hab hbc
    cases b with
    | nil => simp [lex_le] at hab
    | cons y ys =>
      cases c with
      | nil => simp [lex_le] at hbc
      | cons z zs =>
        by_cases hxy : x = y <;> by_cases hyz : y = z
        · subst hxy; subst hyz
          simp only [lex_le, if_pos rfl] at hab hbc ⊢
          exact ih ys zs hab hbc
        · subst hxy
          simp only [lex_le, if_pos rfl] at hab
          simp only [lex_le, if_neg hyz, decide_eq_true_eq] at hbc
          have hxz : x < z := hbc
          simp [lex_le, ne_of_lt hxz, hxz]
        · subst hyz
          simp only [lex_le, if_neg hxy, decide_eq_true_eq] at hab
          simp [lex_le, ne_of_lt hab, hab]
        · simp only [lex_le, if_neg hxy, decide_eq_true_eq] at hab
          simp only [lex_le, if_neg hyz, decide_eq_true_eq] at hbc
          have hxz : x < z := lt_trans hab hbc
          simp [lex_le, ne_of_lt hxz, hxz]

instance : IsTotal RawEvent
    (fun a b => py_str_le (sort_key a) (sort_key b) = true) :=
  ⟨fun a b => lex_le_total (sort_key a).data (sort_key b).data⟩

instance : IsTrans RawEvent
    (fun a b => py_str_le (sort_key a) (sort_key b) = true) :=
  ⟨fun _ _ _ h1 h2 => lex_le_trans _ _ _ h1 h2⟩

/-- Closing every tag of the stack, in stack order, balances against
that stack. -/
theorem bal_map_close (stack : List String) :
    balancedAux (stack.map (fun n => Tok.tclose n)) stack = true := by
  induction stack with
  | nil => rfl
  | cons m rest ih => simp [balancedAux, ih]

/-- Closing down to the first occurrence of `n` on the stack balances
the emitted close tags and leaves the popped stack for the rest. -/
theorem bal_closeUpTo (n : String) (xs : List Tok) :
    ∀ stack : List String, stack.contains n = true →
      balancedAux (closeUpTo n stack ++ xs) stack =
        balancedAux xs (popUpTo n stack) := by
  intro stack
  induction stack with
  | nil => intro h; simp at h
  | cons m rest ih =>
    intro h
    by_cases hm : m = n
    · subst hm; simp [closeUpTo, popUpTo, balancedAux]
    · have hr : rest.contains n = true := by
        simp only [List.contains_cons, Bool.or_eq_true, beq_iff_eq] at h
        rcases h with h | h
        · exact absurd h.symm hm
        · exact h
      simp [closeUpTo, popUpTo, hm, balancedAux, ih hr]

/-- The fault-tolerant tree construction always produces a stream
that balances against the stack it started from. -/
theorem buildAux_balanced (toks : List Tok) :
    ∀ stack : List String, balancedAux (buildAux toks stack) stack = true := by
  induction toks with
  | nil => intro stack; simpa [buildAux] using bal_map_close stack
  | cons t rest ih =>
    intro stack
    cases t with
    | topen n => simpa [buildAux, balancedAux] using ih (n :: stack)
    | tclose n =>
      by_cases h : stack.contains n = true
      · rw [buildAux]
        simp only [h, if_true]
        rw [bal_closeUpTo n _ stack h]
        exact ih (popUpTo n stack)
      · simp only [buildAux, h, if_false]
        exact ih stack
    | text s => simpa [buildAux, balancedAux] using ih stack

/-- Option-monad `mapM` succeeds exactly when the function succeeds
pointwise, producing the results in order. -/
theorem mapM_option_spec {α β : Type} (f : α → Option β) :
    ∀ (l : List α) (out : List β),
      l.mapM f = some out ↔
        List.Forall₂ (fun a b => f a = some b) l out := by
  intro l
  induction l with
  | nil =>
    intro out
    constructor
    · intro h
      simp only [List.mapM_nil, pure, Option.some.injEq] at h
      subst h; exact List.Forall₂.nil
    · intro h; cases h; rfl
  | cons a as ih =>
    intro out
    constructor
    · intro h
      simp only [List.mapM_cons, bind, Option.bind] at h
      cases hfa : f a with
      | none => rw [hfa] at h; exact absurd h (by simp)
      | some b =>
        rw [hfa] at h
        cases hmas : as.mapM f with
        | none => rw [hmas] at h; exact absurd h (by simp)
        | some bs =>
          rw [hmas] at h
          simp only [pure, Option.some.injEq] at h
          subst h
          exact List.Forall₂.cons hfa ((ih bs).mp hmas)
    · intro h
      cases h with
      | cons hfa htail =>
        simp only [List.mapM_cons, bind, Option.bind, hfa, (ih _).mpr htail, pure]

/-- A successful `prepare_event` determines every field of the
normalized record from the raw one. -/
theorem prepare_event_eq (ev : RawEvent) (n : NormalizedEvent)
    (h : prepare_event ev = some n) :
    ∃ s t pu, ev.beginsOn = some s ∧ parse_begins_on s = some t ∧
      picture_url_of ev.picture = some pu ∧
      n = { title := title_of ev.title
            description := truncated_description (ev.description.getD "")
            full_date := full_date_of t
            picture_url := pu
            location := location_of ev.physicalAddress
            link := ev.url.getD "" } := by
  cases hb : ev.beginsOn with
  | none => simp [prepare_event, hb] at h
  | some s =>
    cases hp : picture_url_of ev.picture with
    | none => simp [prepare_event, hb, hp] at h
    | some pu =>
      cases ht : parse_begins_on s with
      | none => simp [prepare_event, hb, hp, ht] at h
      | some t =>
        simp only [prepare_event, hb, hp, ht, Option.some.injEq] at h
        exact ⟨s, t, pu, rfl, ht, rfl, h.symm⟩

/-- Under parseable window bounds and the upstream invariant that
every truthy `beginsOn` of an Event element parses, the
post-response filter succeeds and keeps exactly the qualifying
elements. -/
theorem fetch_core (b e : String) (db de : Int)
    (hb : parse_begins_on b = some db) (he : parse_begins_on e = some de) :
    ∀ l : List RawEvent,
      (∀ x ∈ l, x.typename = "Event" → x.beginsOn ≠ none →
        x.beginsOn.getD "" ≠ "" →
        (parse_begins_on (x.beginsOn.getD "")).isSome) →
      ∃ out, fetch_events l b e = some out ∧
        ∀ x, x ∈ out ↔ x ∈ l ∧ in_window db de x := by
  intro l
  induction l with
  | nil => intro _; exact ⟨[], rfl, by simp⟩
  | cons elem rest ih =>
    intro hparse
    obtain ⟨tail, htail, hiff⟩ := ih (fun x hx => hparse x (List.mem_cons_of_mem _ hx))
    by_cases hty : elem.typename = "Event"
    · cases hbg : elem.beginsOn with
      | none =>
        refine ⟨tail, ?_, ?_⟩
        · simp [fetch_events, hty, hbg, htail]
        · intro x
          rw [hiff]
          constructor
          · rintro ⟨hx, hw⟩; exact ⟨List.mem_cons_of_mem _ hx, hw⟩
          · rintro ⟨hx, hw⟩
            rcases List.mem_cons.mp hx with rfl | hx
            · rcases hw with ⟨_, s, t, hs, _⟩
              rw [hbg] at hs; cases hs
            · exact ⟨hx, hw⟩
      | some s =>
        by_cases hse : s = ""
        · subst hse
          refine ⟨tail, ?_, ?_⟩
          · simp [fetch_events, hty, hbg, htail]
          · intro x
            rw [hiff]
            constructor
            · rintro ⟨hx, hw⟩; exact ⟨List.mem_cons_of_mem _ hx, hw⟩
            · rintro ⟨hx, hw⟩
              rcases List.mem_cons.mp hx with rfl | hx
              · rcases hw with ⟨_, s', t, hs, hne, _⟩
                rw [hbg] at hs; cases hs
                exact absurd rfl hne
              · exact ⟨hx, hw⟩
        · have hstep := hparse elem (List.mem_cons_self _ _) hty
          rw [hbg] at hstep
          have hps : (parse_begins_on s).isSome := by
            simpa [hse] using hstep
          obtain ⟨dt, hdt⟩ := Option.isSome_iff_exists.mp hps
          by_cases hcond : db ≤ dt ∧ dt < de
          · refine ⟨elem :: tail, ?_, ?_⟩
            · simp [fetch_events, hty, hbg, hse, hdt, hb, he, htail, hcond]
            · intro x
              constructor
              · intro hx
                rcases List.mem_cons.mp hx with rfl | hx
                · exact ⟨List.mem_cons_self _ _, hty, s, dt, hbg, hse, hdt, hcond⟩
                · obtain ⟨hx', hw⟩ := (hiff x).mp hx
                  exact ⟨List.mem_cons_of_mem _ hx', hw⟩
              · rintro ⟨hx, hw⟩
                rcases List.mem_cons.mp hx with rfl | hx
                · exact List.mem_cons_self _ _
                · exact List.mem_cons_of_mem _ ((hiff x).mpr ⟨hx, hw⟩)
          · refine ⟨tail, ?_, ?_⟩
            · simp [fetch_events, hty, hbg, hse, hdt, hb, he, htail, hcond]
            · intro x
              rw [hiff]
              constructor
              · rintro ⟨hx, hw⟩; exact ⟨List.mem_cons_of_mem _ hx, hw⟩
              · rintro ⟨hx, hw⟩
                rcases List.mem_cons.mp hx with rfl | hx
                · rcases hw with ⟨_, s', t, hs, hne, hpt, hrange⟩
                  rw [hbg] at hs; cases hs
                  rw [hdt] at hpt; cases hpt
                  exact absurd hrange hcond
                · exact ⟨hx, hw⟩
    · refine ⟨tail, ?_, ?_⟩
      · simp [fetch_events, hty, htail]
      · intro x
        rw [hiff]
        constructor
        · rintro ⟨hx, hw⟩; exact ⟨List.mem_cons_of_mem _ hx, hw⟩
        · rintro ⟨hx, hw⟩
          rcases List.mem_cons.mp hx with rfl | hx
          · exact absurd hw.1 hty
          · exact ⟨hx, hw⟩

/-! ## Claim theorems -/

/-- C1 counterexample: for `evFull`, whose raw picture URL
`https://ex.org/img.png?sig=abc` contains `?`, the normalizer keeps
the full URL, not the substring before the first `?` as the claim
states. -/
theorem picture_query_retained :
    (prepare_event evFull).map NormalizedEvent.picture_url =
      some (some "https://ex.org/img.png?sig=abc") ∧
    ¬ (prepare_event evFull).map NormalizedEvent.picture_url =
      some (some "https://ex.org/img.png") := by
  decide

/-- C1 amended: the normalizer passes the picture URL through
unchanged, query string included; an absent picture key yields an
absent `pictureUrl`. -/
theorem picture_url_passthrough (ev : RawEvent) (n : NormalizedEvent)
    (h : prepare_event ev = some n) :
    (ev.picture = PyField.absent → n.picture_url = none) ∧
    (∀ u, ev.picture = PyField.val u → n.picture_url = u) := by
  obtain ⟨s, t, pu, hb, ht, hp, hn⟩ := prepare_event_eq ev n h
  subst hn
  constructor
  · intro ha
    rw [ha] at hp
    simp only [picture_url_of, Option.some.injEq] at hp
    simp [← hp]
  · intro u hu
    rw [hu] at hp
    simp only [picture_url_of, Option.some.injEq] at hp
    simp [← hp]

/-- C1 witness: the amended passthrough at the concrete event
`evFull`. -/
theorem picture_url_passthrough_witness :
    normFull.picture_url = some "https://ex.org/img.png?sig=abc" :=
  (picture_url_passthrough evFull normFull (by decide)).2
    (some "https://ex.org/img.png?sig=abc") (by decide)

/-- C2: a `picture` key bound to `null` — how a GraphQL response
reports an event without a picture — makes the normalizer raise
(`ev.get("picture", {}).get("url")` calls `.get` on `None`), while
the same event with the key missing outright is normalized fine. -/
theorem null_picture_fatal :
    prepare_event evNullPicture = none ∧
    prepare_event evMissingOptionals ≠ none := by
  decide

/-- C3 counterexample: for `evEmptyTitle`, whose title is present but
the empty string, the normalizer keeps the empty string instead of
substituting the placeholder as the claim states. -/
theorem empty_title_kept :
    (prepare_event evEmptyTitle).map NormalizedEvent.title = some (some "") ∧
    ¬ (prepare_event evEmptyTitle).map NormalizedEvent.title =
      some (some "Sans titre") := by
  decide

/-- C3 amended: the placeholder replaces only an absent title key; a
present title — even the empty string, or a `null` — is passed
through as stored. -/
theorem title_policy (ev : RawEvent) (n : NormalizedEvent)
    (h : prepare_event ev = some n) :
    (ev.title = PyField.absent → n.title = some "Sans titre") ∧
    (ev.title = PyField.null → n.title = none) ∧
    (∀ s, ev.title = PyField.val s → n.title = some s) := by
  obtain ⟨s, t, pu, hb, ht, hp, hn⟩ := prepare_event_eq ev n h
  subst hn
  refine ⟨?_, ?_, ?_⟩
  · intro ha; simp [title_of, ha]
  · intro ha; simp [title_of, ha]
  · intro s' ha; simp [title_of, ha]

/-- C3 witness: the amended title policy at the concrete event
`evMissingOptionals`, whose title key is absent. -/
theorem title_policy_witness :
    normMissing.title = some "Sans titre" :=
  (title_policy evMissingOptionals normMissing (by decide)).1 (by decide)

/-- C4: given parseable window bounds, a successful fetch returns
exactly the elements whose discriminator is `"Event"` and whose
parsed `beginsOn` lies in `[db, de)` (start inclusive, end
exclusive); and under the upstream invariant that every truthy
`beginsOn` parses, a window matching nothing yields `some []`, not an
error. -/
theorem fetch_window_iff (l : List RawEvent) (b e : String) (db de : Int)
    (hb : parse_begins_on b = some db) (he : parse_begins_on e = some de)
    (hup : ∀ x ∈ l, x.typename = "Event" → x.beginsOn ≠ none →
      x.beginsOn.getD "" ≠ "" →
      (parse_begins_on (x.beginsOn.getD "")).isSome) :
    ∃ out, fetch_events l b e = some out ∧
      (∀ x, x ∈ out ↔ x ∈ l ∧ in_window db de x) ∧
      ((∀ x ∈ l, ¬ in_window db de x) → out = []) := by
  obtain ⟨out, hout, hiff⟩ := fetch_core b e db de hb he l hup
  refine ⟨out, hout, hiff, ?_⟩
  intro hnone
  apply List.eq_nil_iff_forall_not_mem.mpr
  intro x hx
  obtain ⟨hxl, hw⟩ := (hiff x).mp hx
  exact hnone x hxl hw

/-- C4 witness: the window filter at a concrete response containing
a qualifying event, a group element and an event starting exactly at
the window's end: only the qualifying event is returned. -/
theorem fetch_window_iff_witness :
    evFull ∈ [evFull, evGroup, evAtWindowEnd] ∧
      in_window 1748736000 1749513600 evFull := by
  obtain ⟨out, hout, hiff, -⟩ :=
    fetch_window_iff [evFull, evGroup, evAtWindowEnd]
      "2025-06-01T00:00:00Z" "2025-06-10T00:00:00Z"
      1748736000 1749513600 (by decide) (by decide) (by decide)
  have hco : fetch_events [evFull, evGroup, evAtWindowEnd]
      "2025-06-01T00:00:00Z" "2025-06-10T00:00:00Z" = some [evFull] := by decide
  rw [hco] at hout
  injection hout with hoo
  subst hoo
  exact (hiff evFull).mp (by decide)

/-- C5: the normalized description is the plain text extracted from
the sanitized raw description, cut at 300 characters with the cut
rstripped and `" …"` appended when longer than 300, and unchanged
when at most 300 characters. -/
theorem description_truncation (ev : RawEvent) (n : NormalizedEvent)
    (h : prepare_event ev = some n) :
    (300 < (get_text (sanitize_toks (ev.description.getD ""))).length →
      n.description =
        rstrip ((get_text (sanitize_toks (ev.description.getD ""))).take 300) ++
          " …") ∧
    ((get_text (sanitize_toks (ev.description.getD ""))).length ≤ 300 →
      n.description = get_text (sanitize_toks (ev.description.getD ""))) := by
  obtain ⟨s, t, pu, hb, ht, hp, hn⟩ := prepare_event_eq ev n h
  subst hn
  constructor
  · intro hlen
    simp [truncated_description, hlen]
  · intro hlen
    have hnlt : ¬ 300 < (get_text (sanitize_toks (ev.description.getD ""))).length :=
      not_lt.mpr hlen
    simp [truncated_description, hnlt]

/-- C5 witness: the short-description branch at the concrete event
`evFull`. -/
theorem description_truncation_witness :
    normFull.description =
      get_text (sanitize_toks (evFull.description.getD "")) :=
  (description_truncation evFull normFull (by decide)).2 (by decide)

/-- C6: sanitization always yields a structurally valid fragment
(every opened tag closed, a total function that cannot raise), and
the unclosed-tag example `<p>Hello <b>world</b>` is completed to
`<p>Hello <b>world</b></p>` with plain text `Hello world`. -/
theorem sanitize_wellformed :
    (∀ raw_html : String, balancedAux (sanitize_toks raw_html) [] = true) ∧
    sanitize_html "<p>Hello <b>world</b>" = "<p>Hello <b>world</b></p>" ∧
    get_text (sanitize_toks "<p>Hello <b>world</b>") = "Hello world" := by
  refine ⟨fun raw_html => buildAux_balanced (tokenize raw_html) [], by decide, by decide⟩

/-- C7: the `full_date` of every normalized event is the French
rendering of its `beginsOn` instant converted to Europe/Paris, and
the conversion follows the daylight-saving rules, not a fixed
offset: `2025-03-30T01:30:00Z`, half an hour after the spring
transition, renders at UTC+2 as `Dimanche 30 mars 2025 à 3 h 30`,
while a January instant is at UTC+1; hour unpadded, minute always
two digits. -/
theorem full_date_paris :
    (∀ (ev : RawEvent) (n : NormalizedEvent) (s : String) (t : Int),
      ev.beginsOn = some s → parse_begins_on s = some t →
      prepare_event ev = some n → n.full_date = full_date_of t) ∧
    (parse_begins_on "2025-03-30T01:30:00Z").map full_date_of =
      some "Dimanche 30 mars 2025 à 3 h 30" ∧
    (parse_begins_on "2025-03-30T01:30:00Z").map paris_offset = some 7200 ∧
    (parse_begins_on "2025-01-15T18:00:00Z").map paris_offset = some 3600 ∧
    (parse_begins_on "2025-06-02T18:00:00Z").map full_date_of =
      some "Lundi 2 juin 2025 à 20 h 00" := by
  refine ⟨?_, by decide, by decide, by decide, by decide⟩
  intro ev n s t hs ht h
  obtain ⟨s', t', pu, hb', ht', hp', hn⟩ := prepare_event_eq ev n h
  rw [hs] at hb'
  injection hb' with hss
  subst hss
  rw [ht] at ht'
  injection ht' with htt
  subst htt
  subst hn
  rfl

/-- C7 witness: the date-rendering equation at the concrete event
`evFull`. -/
theorem full_date_paris_witness :
    normFull.full_date = full_date_of 1748887200 :=
  full_date_paris.1 evFull normFull "2025-06-02T18:00:00Z" 1748887200
    (by decide) (by decide) (by decide)

/-- C8: a successful normalization of the sorted fetch result is a
one-to-one, order-preserving map (same length as the input, element
`i` of the output normalizes element `i` of the sorted input), and
the sorted input is non-decreasing by its `beginsOn` key. -/
theorem normalized_order (raws : List RawEvent) (out : List NormalizedEvent)
    (h : prepare_events_for_template (sort_events raws) = some out) :
    out.length = raws.length ∧
    List.Forall₂ (fun r n => prepare_event r = some n) (sort_events raws) out ∧
    List.Pairwise (fun a b => py_str_le (sort_key a) (sort_key b) = true)
      (sort_events raws) := by
  have hf := (mapM_option_spec prepare_event (sort_events raws) out).mp h
  refine ⟨?_, hf, ?_⟩
  · have h1 : (sort_events raws).length = out.length := List.Forall₂.length_eq hf
    have h2 : (sort_events raws).length = raws.length :=
      (List.perm_insertionSort _ raws).length_eq
    exact h1.symm.trans h2
  · exact List.sorted_insertionSort _ raws

/-- C8 witness: normalization after sorting at a concrete two-event
list given in reverse chronological order. -/
theorem normalized_order_witness :
    ([normFull, normAtEnd] : List NormalizedEvent).length =
      ([evAtWindowEnd, evFull] : List RawEvent).length ∧
    List.Forall₂ (fun r n => prepare_event r = some n)
      (sort_events [evAtWindowEnd, evFull]) [normFull, normAtEnd] ∧
    List.Pairwise (fun a b => py_str_le (sort_key a) (sort_key b) = true)
      (sort_events [evAtWindowEnd, evFull]) :=
  normalized_order [evAtWindowEnd, evFull] [normFull, normAtEnd] (by decide)

/-- C9: under parseable bounds and the upstream invariant, the fetch
filter succeeds while silently excluding every Event element whose
`beginsOn` is absent or null, and every element it returns carries a
present, parseable `beginsOn`. -/
theorem fetch_skips_missing_begins (l : List RawEvent) (b e : String)
    (db de : Int)
    (hb : parse_begins_on b = some db) (he : parse_begins_on e = some de)
    (hup : ∀ x ∈ l, x.typename = "Event" → x.beginsOn ≠ none →
      x.beginsOn.getD "" ≠ "" →
      (parse_begins_on (x.beginsOn.getD "")).isSome) :
    ∃ out, fetch_events l b e = some out ∧
      (∀ x ∈ l, x.beginsOn = none → x ∉ out) ∧
      (∀ x ∈ out, ∃ s t, x.beginsOn = some s ∧ parse_begins_on s = some t) := by
  obtain ⟨out, hout, hiff⟩ := fetch_core b e db de hb he l hup
  refine ⟨out, hout, ?_, ?_⟩
  · intro x _ hxn hxo
    obtain ⟨-, -, s, t, hs, -⟩ := (hiff x).mp hxo
    rw [hxn] at hs
    cases hs
  · intro x hx
    obtain ⟨-, -, s, t, hs, -, hp, -⟩ := (hiff x).mp hx
    exact ⟨s, t, hs, hp⟩

/-- C9 witness: a concrete response holding an Event with no
`beginsOn` next to a normal one. -/
theorem fetch_skips_missing_begins_witness :
    evNoBegins ∉ ([evFull] : List RawEvent) ∧
      (∃ s t, evFull.beginsOn = some s ∧ parse_begins_on s = some t) := by
  obtain ⟨out, hout, hexcl, hpar⟩ :=
    fetch_skips_missing_begins [evNoBegins, evFull] "2025-06-01T00:00:00Z"
      "2025-06-10T00:00:00Z" 1748736000 1749513600
      (by decide) (by decide) (by decide)
  have hco : fetch_events [evNoBegins, evFull] "2025-06-01T00:00:00Z"
      "2025-06-10T00:00:00Z" = some [evFull] := by decide
  rw [hco] at hout
  injection hout with hoo
  subst hoo
  exact ⟨hexcl evNoBegins (by decide) (by decide), hpar evFull (by decide)⟩

/-- C10: the normalizer raises on an event whose `beginsOn` is
absent or null, and likewise on one whose `beginsOn` does not parse;
it never produces a normalized event for them. -/
theorem prepare_requires_begins (ev : RawEvent) :
    (ev.beginsOn = none → prepare_event ev = none) ∧
    (∀ s, ev.beginsOn = some s → parse_begins_on s = none →
      prepare_event ev = none) := by
  constructor
  · intro hb
    simp [prepare_event, hb]
  · intro s hb hp
    cases hq : picture_url_of ev.picture with
    | none => simp [prepare_event, hb, hq]
    | some pu => simp [prepare_event, hb, hq, hp]

/-- C10 witness: the normalizer raises at the concrete Event element
with no `beginsOn`. -/
theorem prepare_requires_begins_witness :
    prepare_event evNoBegins = none :=
  (prepare_requires_begins evNoBegins).1 (by decide)
